import Mathlib

/-!
Verification of the octree-pruned Marching Cubes core of
`src/parallel_builder/tree_mesh_builder.{h,cpp}`.

The C++ code works on IEEE `float`; the shallow embedding models scalars as
exact real numbers.  Float literals of the source are embedded as the exact
rational value of the `float` they denote:
the constant `0.86602540378f` (line 17 of `tree_mesh_builder.cpp`) is the
float closest to that decimal literal, namely `14529495 * 2^(-24)`, and
`std::numeric_limits<float>::max()` is `2^128 - 2^104`.

The cube-building collaborator `BaseMeshBuilder::buildCube` and the corner
table `sc_vertexNormPos` live in `base_mesh_builder.cpp`, which is not part
of the repository sources given; `buildCube` is therefore kept as an
explicit parameter `bc` returning the triangle count together with the
triangles it emits, and `sc_vertexNormPos` is modelled from the spec.

`treeTraversal` (lines 26-56 of `tree_mesh_builder.cpp`) recurses with
`gridSize` halved until it equals `1.0f`; on a non-power-of-two size the
C++ recursion never terminates, so the embedding carries an explicit fuel
argument, `none` standing for non-termination.  For instrumentation the
embedding also records, per `buildCube` invocation, the cell origin, the
`gridSize` argument and the recursion depth, and threads the `mTriangles`
buffer explicitly.
-/

/-- A 3D float vector (`Vec3_t<float>` of the sources), floats modelled as reals. -/
structure Vec3 where
  x : ℝ
  y : ℝ
  z : ℝ

/-- A triangle is three vertices (`BaseMeshBuilder::Triangle_t`, abstracted to its corners). -/
abbrev Triangle := Vec3 × Vec3 × Vec3

/-- The exact value of the float constant `0.86602540378f`
(`tree_mesh_builder.cpp` line 17): the nearest float32 to the decimal
literal is `14529495 * 2^(-24) = 0.866025388...`, which is strictly below
`√3/2 = 0.866025403784...`. -/
noncomputable def sqrt3Div2 : ℝ := 14529495 / 2 ^ 24

/-- The float constant `gridSizeCutoff = 1.0f` (`tree_mesh_builder.cpp` line 18). -/
noncomputable def gridSizeCutoff : ℝ := 1

/-- `std::numeric_limits<float>::max() = (2 - 2^(-23)) * 2^127 = 2^128 - 2^104`. -/
noncomputable def fltMax : ℝ := 2 ^ 128 - 2 ^ 104

/-- Squared Euclidean distance as computed in the loop body of
`TreeMeshBuilder::evaluateFieldAt` (`tree_mesh_builder.cpp` lines 86-92). -/
noncomputable def sqDist (pos p : Vec3) : ℝ :=
  (pos.x - p.x) * (pos.x - p.x) + (pos.y - p.y) * (pos.y - p.y) +
    (pos.z - p.z) * (pos.z - p.z)

/-- `TreeMeshBuilder::evaluateFieldAt` (`tree_mesh_builder.cpp` lines 71-97):
`value` starts at `std::numeric_limits<float>::max()`, the loop takes the
running minimum of the squared distances to the field points in order, and
the square root is taken once at the end. -/
noncomputable def evaluateFieldAt (pos : Vec3) (points : List Vec3) : ℝ :=
  Real.sqrt (points.foldl (fun value p => min value (sqDist pos p)) fltMax)

/-- `TreeMeshBuilder::emitTriangle` (`tree_mesh_builder.cpp` lines 99-108):
`mTriangles.push_back(triangle)`, i.e. append at the end of the buffer.
The `omp critical` guard serialises concurrent appends; the embedding is the
sequential effect of one append. -/
def emitTriangle (triangle : Triangle) (mTriangles : List Triangle) : List Triangle :=
  mTriangles ++ [triangle]

/-- `TreeMeshBuilder::getTrianglesArray` (`tree_mesh_builder.h` line 25):
exposes the data of `mTriangles`. -/
def getTrianglesArray (mTriangles : List Triangle) : List Triangle := mTriangles

/-- Modelled from the spec: `BaseMeshBuilder::sc_vertexNormPos`
(`base_mesh_builder.cpp` is not among the given sources) is the table of the
8 unit-cube corner offsets, "the fixed unit-cube corner-sign offsets"; its
entry 0 is the origin corner `(0,0,0)`, since `marchCubes` seeds the root
cell with `sc_vertexNormPos[0]`. -/
noncomputable def sc_vertexNormPos : List Vec3 :=
  [⟨0, 0, 0⟩, ⟨1, 0, 0⟩, ⟨1, 1, 0⟩, ⟨0, 1, 0⟩,
   ⟨0, 0, 1⟩, ⟨1, 0, 1⟩, ⟨1, 1, 1⟩, ⟨0, 1, 1⟩]

/-- The cell center `cubeCenter3D` of `treeTraversal`
(`tree_mesh_builder.cpp` lines 34-36): `(pos + gridSize/2) * mGridResolution`
per axis. -/
noncomputable def cubeCenter (pos : Vec3) (gridSize res : ℝ) : Vec3 :=
  ⟨(pos.x + gridSize / 2) * res, (pos.y + gridSize / 2) * res,
   (pos.z + gridSize / 2) * res⟩

/-- The pruning condition of `treeTraversal` (`tree_mesh_builder.cpp`
line 38): the field value at the cell center exceeds
`mIsoLevel + sqrt3Div2 * edgeSize`, where `edgeSize = gridSize * mGridResolution`. -/
noncomputable def pruneTest (points : List Vec3) (iso res : ℝ) (pos : Vec3)
    (gridSize : ℝ) : Prop :=
  evaluateFieldAt (cubeCenter pos gridSize res) points > iso + sqrt3Div2 * (gridSize * res)

noncomputable instance (points : List Vec3) (iso res : ℝ) (pos : Vec3) (gridSize : ℝ) :
    Decidable (pruneTest points iso res pos gridSize) := by
  unfold pruneTest; exact Real.decidableLT _ _

/-- Result of an instrumented traversal: the returned `unsigned` triangle
count, the list of `buildCube` invocations (cell origin, the `gridSize`
argument at the call, recursion depth), and the `mTriangles` buffer. -/
structure TraceResult where
  count : ℕ
  calls : List (Vec3 × ℝ × ℕ)
  buf : List Triangle

/-- One iteration of the `for i in 0..7` child loop of `treeTraversal`
(`tree_mesh_builder.cpp` lines 45-52): run the child at the given offset on
the current buffer and add its triangle count (`totalTriangles += ...`),
collecting its `buildCube` calls. -/
def childStep (f : Vec3 → List Triangle → Option TraceResult)
    (acc : Option TraceResult) (offset : Vec3) : Option TraceResult :=
  acc.bind fun r =>
    (f offset r.buf).map fun r2 => ⟨r.count + r2.count, r.calls ++ r2.calls, r2.buf⟩

/-- `TreeMeshBuilder::treeTraversal` (`tree_mesh_builder.cpp` lines 26-56),
instrumented.  Arguments: field points, `mIsoLevel`, `mGridResolution`, the
`buildCube` collaborator `bc` (returning its triangle count and the
triangles it emits), fuel, recursion depth, `pos`, `gridSize`, and the
current `mTriangles` buffer.  Branches in source order: the prune test,
then the `gridSize == gridSizeCutoff` leaf test delegating to `buildCube`
(whose triangles go through `emitTriangle`), else the 8-child recursion at
`pos + (gridSize/2) * sc_vertexNormPos[i]` with grid size `gridSize/2`. -/
noncomputable def treeTraversal (points : List Vec3) (iso res : ℝ)
    (bc : Vec3 → ℕ × List Triangle) :
    ℕ → ℕ → Vec3 → ℝ → List Triangle → Option TraceResult
  | 0, _, _, _, _ => none
  | fuel + 1, depth, pos, gridSize, buf =>
    if pruneTest points iso res pos gridSize then
      some ⟨0, [], buf⟩
    else if gridSize = gridSizeCutoff then
      some ⟨(bc pos).1, [(pos, gridSize, depth)],
            (bc pos).2.foldl (fun b t => emitTriangle t b) buf⟩
    else
      sc_vertexNormPos.foldl
        (childStep fun offset b =>
          treeTraversal points iso res bc fuel (depth + 1)
            ⟨pos.x + gridSize / 2 * offset.x,
             pos.y + gridSize / 2 * offset.y,
             pos.z + gridSize / 2 * offset.z⟩
            (gridSize / 2) b)
        (some ⟨0, [], buf⟩)

/-- `TreeMeshBuilder::marchCubes` (`tree_mesh_builder.cpp` lines 58-69):
seeds `treeTraversal` at `sc_vertexNormPos[0] = (0,0,0)` with
`gridSize = mGridSize`.  Per the source comment at line 42 the grid edge
size is a power of two, so it is passed as `2^k`; fuel `k+1` suffices by
the termination theorem below.  The `mTriangles` buffer starts empty. -/
noncomputable def marchCubes (points : List Vec3) (iso res : ℝ)
    (bc : Vec3 → ℕ × List Triangle) (k : ℕ) : Option TraceResult :=
  treeTraversal points iso res bc (k + 1) 0 ⟨0, 0, 0⟩ ((2 : ℝ) ^ k) []

/-- A degenerate cube builder: no triangles (used to instantiate witnesses). -/
def bcZero : Vec3 → ℕ × List Triangle := fun _ => (0, [])

/-- A cube builder emitting one triangle per call (used to instantiate witnesses). -/
def bcOne : Vec3 → ℕ × List Triangle := fun _ => (1, [(⟨0, 0, 0⟩, ⟨0, 0, 0⟩, ⟨0, 0, 0⟩)])

/-- The isolevel of the failing input for C2: `√3/2 - sqrt3Div2 ≈ 1.56e-8`,
the (positive) gap between the exact half space diagonal and the code's
float prune constant. -/
noncomputable def isoGap : ℝ := Real.sqrt 3 / 2 - sqrt3Div2

lemma treeTraversal_zero (points : List Vec3) (iso res : ℝ)
    (bc : Vec3 → ℕ × List Triangle) (d : ℕ) (pos : Vec3) (g : ℝ) (buf : List Triangle) :
    treeTraversal points iso res bc 0 d pos g buf = none := rfl

lemma treeTraversal_succ (points : List Vec3) (iso res : ℝ)
    (bc : Vec3 → ℕ × List Triangle) (fuel d : ℕ) (pos : Vec3) (g : ℝ)
    (buf : List Triangle) :
    treeTraversal points iso res bc (fuel + 1) d pos g buf =
      if pruneTest points iso res pos g then
        some ⟨0, [], buf⟩
      else if g = gridSizeCutoff then
        some ⟨(bc pos).1, [(pos, g, d)],
              (bc pos).2.foldl (fun b t => emitTriangle t b) buf⟩
      else
        sc_vertexNormPos.foldl
          (childStep fun offset b =>
            treeTraversal points iso res bc fuel (d + 1)
              ⟨pos.x + g / 2 * offset.x, pos.y + g / 2 * offset.y,
               pos.z + g / 2 * offset.z⟩ (g / 2) b)
          (some ⟨0, [], buf⟩) := rfl

lemma evaluateFieldAt_nil (pos : Vec3) : evaluateFieldAt pos [] = Real.sqrt fltMax := rfl

lemma evaluateFieldAt_single (pos p : Vec3) :
    evaluateFieldAt pos [p] = Real.sqrt (min fltMax (sqDist pos p)) := rfl

lemma sqrt3Div2_nonneg : 0 ≤ sqrt3Div2 := by norm_num [sqrt3Div2]

lemma sqrt3Div2_pos : 0 < sqrt3Div2 := by norm_num [sqrt3Div2]

/-- The float constant is strictly below the exact half space diagonal:
`2 * (14529495/2^24) < √3` because `14529495^2 * 4 < 3 * 2^48`. -/
lemma two_mul_sqrt3Div2_lt : 2 * sqrt3Div2 < Real.sqrt 3 := by
  have h : (2 * sqrt3Div2) ^ 2 < 3 := by norm_num [sqrt3Div2]
  have h0 : (0 : ℝ) ≤ 2 * sqrt3Div2 := by norm_num [sqrt3Div2]
  exact (Real.lt_sqrt h0).2 h

lemma sqrt3Div2_lt_half_sqrt3 : sqrt3Div2 < Real.sqrt 3 / 2 := by
  linarith [two_mul_sqrt3Div2_lt]

lemma sqrt3Div2_le_half_sqrt3 : sqrt3Div2 ≤ Real.sqrt 3 / 2 :=
  le_of_lt sqrt3Div2_lt_half_sqrt3

lemma one_lt_fltMax : (1 : ℝ) < fltMax := by norm_num [fltMax]

lemma sqrt_fltMax_lt : Real.sqrt fltMax < fltMax := by
  have h : (0 : ℝ) < fltMax := by norm_num [fltMax]
  exact (Real.sqrt_lt' h).2 (by norm_num [fltMax])

lemma two_lt_sqrt_fltMax : (2 : ℝ) < Real.sqrt fltMax := by
  have h : (2 : ℝ) ^ 2 < fltMax := by norm_num [fltMax]
  exact (Real.lt_sqrt (by norm_num)).2 h

lemma pow63_lt_sqrt_fltMax : (2 : ℝ) ^ 63 < Real.sqrt fltMax := by
  have h : ((2 : ℝ) ^ 63) ^ 2 < fltMax := by norm_num [fltMax]
  exact (Real.lt_sqrt (by positivity)).2 h

lemma sqrt_fltMax_le_pow64 : Real.sqrt fltMax ≤ (2 : ℝ) ^ 64 := by
  have h : fltMax ≤ ((2 : ℝ) ^ 64) ^ 2 := by norm_num [fltMax]
  calc Real.sqrt fltMax ≤ Real.sqrt (((2 : ℝ) ^ 64) ^ 2) := Real.sqrt_le_sqrt h
    _ = (2 : ℝ) ^ 64 := Real.sqrt_sq (by positivity)

lemma sqrt_three_lt_two : Real.sqrt 3 < 2 := by
  have := Real.sqrt_lt' (x := 3) (y := 2) (by norm_num)
  exact this.2 (by norm_num)

lemma foldl_childStep_none (f : Vec3 → List Triangle → Option TraceResult) :
    ∀ offs : List Vec3, offs.foldl (childStep f) none = none := by
  intro offs
  induction offs with
  | nil => rfl
  | cons o os ih => simpa [childStep] using ih

lemma foldl_emitTriangle (ts : List Triangle) :
    ∀ buf : List Triangle, ts.foldl (fun b t => emitTriangle t b) buf = buf ++ ts := by
  induction ts with
  | nil => intro buf; simp
  | cons t ts ih =>
    intro buf
    rw [List.foldl_cons, ih (emitTriangle t buf)]
    simp [emitTriangle]

lemma foldl_min_le (l : List ℝ) :
    ∀ a : ℝ, l.foldl min a ≤ a ∧ ∀ b ∈ l, l.foldl min a ≤ b := by
  induction l with
  | nil => intro a; simp
  | cons c l ih =>
    intro a
    obtain ⟨h1, h2⟩ := ih (min a c)
    rw [List.foldl_cons]
    refine ⟨le_trans h1 (min_le_left _ _), ?_⟩
    intro b hb
    rcases List.mem_cons.1 hb with rfl | hb
    · exact le_trans h1 (min_le_right _ _)
    · exact h2 b hb

lemma foldl_min_mem (l : List ℝ) :
    ∀ a : ℝ, l.foldl min a = a ∨ l.foldl min a ∈ l := by
  induction l with
  | nil => intro a; left; rfl
  | cons c l ih =>
    intro a
    rcases ih (min a c) with h | h
    · rcases min_choice a c with hm | hm
      · left; rw [List.foldl_cons, h, hm]
      · right; rw [List.foldl_cons, h, hm]; exact List.mem_cons_self _ _
    · right; exact List.mem_cons_of_mem _ h

lemma foldl_childStep_calls {f : Vec3 → List Triangle → Option TraceResult}
    {P : Vec3 × ℝ × ℕ → Prop} :
    ∀ offs : List Vec3,
      (∀ off ∈ offs, ∀ b, ∃ r, f off b = some r ∧ ∀ c ∈ r.calls, P c) →
      ∀ r0 : TraceResult, (∀ c ∈ r0.calls, P c) →
        ∃ r, offs.foldl (childStep f) (some r0) = some r ∧ ∀ c ∈ r.calls, P c := by
  intro offs
  induction offs with
  | nil => intro _ r0 h0; exact ⟨r0, rfl, h0⟩
  | cons o os ih =>
    intro hf r0 h0
    obtain ⟨r1, hr1, hP1⟩ := hf o (List.mem_cons_self _ _) r0.buf
    have hstep : childStep f (some r0) o =
        some ⟨r0.count + r1.count, r0.calls ++ r1.calls, r1.buf⟩ := by
      simp [childStep, hr1]
    have hcomb : ∀ c ∈ (⟨r0.count + r1.count, r0.calls ++ r1.calls,
        r1.buf⟩ : TraceResult).calls, P c := by
      intro c hc
      rcases List.mem_append.1 hc with hc | hc
      · exact h0 c hc
      · exact hP1 c hc
    obtain ⟨r, hr, hP⟩ := ih (fun off hoff b => hf off (List.mem_cons_of_mem _ hoff) b)
      ⟨r0.count + r1.count, r0.calls ++ r1.calls, r1.buf⟩ hcomb
    exact ⟨r, by rw [List.foldl_cons, hstep]; exact hr, hP⟩

lemma foldl_childStep_buf {f : Vec3 → List Triangle → Option TraceResult}
    (hf : ∀ off b r, f off b = some r → ∃ ts, r.buf = b ++ ts ∧ ts.length = r.count) :
    ∀ (offs : List Vec3) (r0 : TraceResult) (buf0 : List Triangle),
      (∃ ts0, r0.buf = buf0 ++ ts0 ∧ ts0.length = r0.count) →
      ∀ r : TraceResult, offs.foldl (childStep f) (some r0) = some r →
        ∃ ts, r.buf = buf0 ++ ts ∧ ts.length = r.count := by
  intro offs
  induction offs with
  | nil =>
    intro r0 buf0 h0 r hr
    simp only [List.foldl_nil, Option.some.injEq] at hr
    exact hr ▸ h0
  | cons o os ih =>
    intro r0 buf0 h0 r hr
    rw [List.foldl_cons] at hr
    cases hfo : f o r0.buf with
    | none =>
      rw [show childStep f (some r0) o = none by simp [childStep, hfo],
        foldl_childStep_none] at hr
      exact absurd hr (by simp)
    | some r1 =>
      rw [show childStep f (some r0) o =
          some ⟨r0.count + r1.count, r0.calls ++ r1.calls, r1.buf⟩ by
        simp [childStep, hfo]] at hr
      obtain ⟨ts0, hb0, hl0⟩ := h0
      obtain ⟨ts1, hb1, hl1⟩ := hf o r0.buf r1 hfo
      refine ih ⟨r0.count + r1.count, r0.calls ++ r1.calls, r1.buf⟩ buf0
        ⟨ts0 ++ ts1, ?_, ?_⟩ r hr
      · simp [hb1, hb0]
      · simp [hl0, hl1]

lemma pow_succ_div_two (k : ℕ) : (2 : ℝ) ^ (k + 1) / 2 = 2 ^ k := by
  rw [pow_succ]
  exact mul_div_cancel_right₀ _ two_ne_zero

lemma pow_succ_ne_cutoff (k : ℕ) : ¬((2 : ℝ) ^ (k + 1) = gridSizeCutoff) := by
  simp only [gridSizeCutoff]
  exact ne_of_gt (one_lt_pow₀ (by norm_num) (Nat.succ_ne_zero k))

/-- With fuel `k+1` the traversal of a cell of grid size `2^k` at recursion
depth `d` returns a result, and every `buildCube` invocation in it happens
on a cell of grid size exactly `gridSizeCutoff = 1` at depth exactly `d + k`. -/
lemma treeTraversal_pow_calls (points : List Vec3) (iso res : ℝ)
    (bc : Vec3 → ℕ × List Triangle) (k : ℕ) :
    ∀ (d : ℕ) (pos : Vec3) (buf : List Triangle),
      ∃ r, treeTraversal points iso res bc (k + 1) d pos ((2 : ℝ) ^ k) buf = some r ∧
        ∀ c ∈ r.calls, c.2.1 = gridSizeCutoff ∧ c.2.2 = d + k := by
  induction k with
  | zero =>
    intro d pos buf
    rw [treeTraversal_succ]
    by_cases hp : pruneTest points iso res pos ((2 : ℝ) ^ 0)
    · rw [if_pos hp]
      exact ⟨⟨0, [], buf⟩, rfl, by simp⟩
    · rw [if_neg hp, if_pos (by norm_num [gridSizeCutoff])]
      refine ⟨_, rfl, ?_⟩
      intro c hc
      simp only [List.mem_singleton] at hc
      subst hc
      exact ⟨by norm_num [gridSizeCutoff], by simp⟩
  | succ k ih =>
    intro d pos buf
    rw [treeTraversal_succ]
    by_cases hp : pruneTest points iso res pos ((2 : ℝ) ^ (k + 1))
    · rw [if_pos hp]
      exact ⟨⟨0, [], buf⟩, rfl, by simp⟩
    · rw [if_neg hp, if_neg (pow_succ_ne_cutoff k)]
      simp only [pow_succ_div_two]
      have hf : ∀ off ∈ sc_vertexNormPos, ∀ b, ∃ r,
          treeTraversal points iso res bc (k + 1) (d + 1)
            ⟨pos.x + 2 ^ k * off.x, pos.y + 2 ^ k * off.y,
             pos.z + 2 ^ k * off.z⟩ ((2 : ℝ) ^ k) b = some r ∧
          ∀ c ∈ r.calls, c.2.1 = gridSizeCutoff ∧ c.2.2 = d + (k + 1) := by
        intro off _ b
        obtain ⟨r, hr, hP⟩ := ih (d + 1)
          ⟨pos.x + 2 ^ k * off.x, pos.y + 2 ^ k * off.y, pos.z + 2 ^ k * off.z⟩ b
        exact ⟨r, hr, fun c hc => ⟨(hP c hc).1, by have := (hP c hc).2; omega⟩⟩
      obtain ⟨r, hr, hP⟩ := foldl_childStep_calls sc_vertexNormPos hf ⟨0, [], buf⟩ (by simp)
      exact ⟨r, hr, hP⟩

/-- If `buildCube` reports exactly the number of triangles it emits, every
`treeTraversal` call extends the buffer by exactly its returned count, with
the previous contents as an untouched prefix. -/
lemma treeTraversal_count_buf (points : List Vec3) (iso res : ℝ)
    (bc : Vec3 → ℕ × List Triangle)
    (hbc : ∀ p, (bc p).1 = (bc p).2.length) :
    ∀ (fuel d : ℕ) (pos : Vec3) (g : ℝ) (buf : List Triangle) (r : TraceResult),
      treeTraversal points iso res bc fuel d pos g buf = some r →
      ∃ ts, r.buf = buf ++ ts ∧ ts.length = r.count := by
  intro fuel
  induction fuel with
  | zero =>
    intro d pos g buf r h
    rw [treeTraversal_zero] at h
    exact absurd h (by simp)
  | succ fuel ih =>
    intro d pos g buf r h
    rw [treeTraversal_succ] at h
    by_cases hp : pruneTest points iso res pos g
    · rw [if_pos hp] at h
      simp only [Option.some.injEq] at h
      subst h
      exact ⟨[], by simp, rfl⟩
    · rw [if_neg hp] at h
      by_cases hg : g = gridSizeCutoff
      · rw [if_pos hg] at h
        simp only [Option.some.injEq] at h
        subst h
        exact ⟨(bc pos).2, foldl_emitTriangle _ buf, (hbc pos).symm⟩
      · rw [if_neg hg] at h
        exact foldl_childStep_buf
          (fun off b r' h' => ih (d + 1)
            ⟨pos.x + g / 2 * off.x, pos.y + g / 2 * off.y, pos.z + g / 2 * off.z⟩
            (g / 2) b r' h')
          sc_vertexNormPos ⟨0, [], buf⟩ buf ⟨[], by simp, rfl⟩ r h

lemma treeTraversal_pruned (points : List Vec3) (iso res : ℝ)
    (bc : Vec3 → ℕ × List Triangle) (fuel d : ℕ) (pos : Vec3) (g : ℝ)
    (buf : List Triangle) (hp : pruneTest points iso res pos g) :
    treeTraversal points iso res bc (fuel + 1) d pos g buf = some ⟨0, [], buf⟩ := by
  rw [treeTraversal_succ, if_pos hp]

lemma treeTraversal_leaf (points : List Vec3) (iso res : ℝ)
    (bc : Vec3 → ℕ × List Triangle) (fuel d : ℕ) (pos : Vec3) (g : ℝ)
    (buf : List Triangle) (hg : g = gridSizeCutoff)
    (hnp : ¬ pruneTest points iso res pos g) :
    treeTraversal points iso res bc (fuel + 1) d pos g buf =
      some ⟨(bc pos).1, [(pos, g, d)], buf ++ (bc pos).2⟩ := by
  rw [treeTraversal_succ, if_neg hnp, if_pos hg, foldl_emitTriangle]

lemma eval_center_two : evaluateFieldAt (cubeCenter ⟨0, 0, 0⟩ 2 1) [⟨0, 0, 0⟩] = Real.sqrt 3 := by
  rw [evaluateFieldAt_single]
  have h1 : sqDist (cubeCenter ⟨0, 0, 0⟩ 2 1) ⟨0, 0, 0⟩ = 3 := by
    simp [cubeCenter, sqDist]
    norm_num
  rw [h1, min_eq_right (by norm_num [fltMax] : (3 : ℝ) ≤ fltMax)]

lemma eval_origin_single : evaluateFieldAt ⟨0, 0, 0⟩ [⟨0, 0, 0⟩] = 0 := by
  rw [evaluateFieldAt_single]
  have h1 : sqDist (⟨0, 0, 0⟩ : Vec3) ⟨0, 0, 0⟩ = 0 := by simp [sqDist]
  rw [h1, min_eq_right (by norm_num [fltMax] : (0 : ℝ) ≤ fltMax), Real.sqrt_zero]

lemma eval_diag_single : evaluateFieldAt ⟨1, 1, 1⟩ [⟨0, 0, 0⟩] = Real.sqrt 3 := by
  rw [evaluateFieldAt_single]
  have h1 : sqDist (⟨1, 1, 1⟩ : Vec3) ⟨0, 0, 0⟩ = 3 := by simp [sqDist]; norm_num
  rw [h1, min_eq_right (by norm_num [fltMax] : (3 : ℝ) ≤ fltMax)]

lemma eval_center_unit :
    evaluateFieldAt (cubeCenter ⟨0, 0, 0⟩ 1 1) [⟨1 / 2, 1 / 2, 1 / 2⟩] = 0 := by
  rw [evaluateFieldAt_single]
  have h1 : sqDist (cubeCenter ⟨0, 0, 0⟩ 1 1) ⟨1 / 2, 1 / 2, 1 / 2⟩ = 0 := by
    simp [cubeCenter, sqDist]
  rw [h1, min_eq_right (by norm_num [fltMax] : (0 : ℝ) ≤ fltMax), Real.sqrt_zero]

lemma not_prune_unit : ¬ pruneTest [⟨1 / 2, 1 / 2, 1 / 2⟩] 1 1 ⟨0, 0, 0⟩ 1 := by
  unfold pruneTest
  rw [eval_center_unit]
  have h := sqrt3Div2_nonneg
  intro hc
  nlinarith

lemma marchCubes_unit_eval (bc : Vec3 → ℕ × List Triangle) :
    marchCubes [⟨1 / 2, 1 / 2, 1 / 2⟩] 1 1 bc 0 =
      some ⟨(bc ⟨0, 0, 0⟩).1, [(⟨0, 0, 0⟩, 1, 0)], (bc ⟨0, 0, 0⟩).2⟩ := by
  unfold marchCubes
  rw [pow_zero, treeTraversal_leaf _ _ _ _ 0 0 _ 1 _
    (show (1 : ℝ) = gridSizeCutoff from rfl) not_prune_unit]
  rfl

/-- C1: for every point set, isolevel, and octree cell (with nonnegative
world edge length), if the field value at the cell's geometric center is
strictly greater than `isoLevel + (√3/2) * cellWorldEdgeLength`, then
`treeTraversal` on that cell returns triangle count 0 with no `buildCube`
invocation and an unchanged triangle buffer.  This holds because the code's
prune constant `0.86602540378f` is at most the exact `√3/2`, so the stated
bound implies the code's prune condition. -/
theorem claim_C1_prune_returns_zero (points : List Vec3) (iso res : ℝ)
    (bc : Vec3 → ℕ × List Triangle) (fuel d : ℕ) (pos : Vec3) (g : ℝ)
    (buf : List Triangle) (hge : 0 ≤ g * res)
    (h : evaluateFieldAt (cubeCenter pos g res) points >
      iso + Real.sqrt 3 / 2 * (g * res)) :
    treeTraversal points iso res bc (fuel + 1) d pos g buf = some ⟨0, [], buf⟩ := by
  have hc : sqrt3Div2 * (g * res) ≤ Real.sqrt 3 / 2 * (g * res) :=
    mul_le_mul_of_nonneg_right sqrt3Div2_le_half_sqrt3 hge
  have hp : pruneTest points iso res pos g := by
    unfold pruneTest
    exact lt_of_le_of_lt (by linarith) h
  exact treeTraversal_pruned points iso res bc fuel d pos g buf hp

/-- Witness for C1 at a concrete cell: the empty point set, isolevel 0,
resolution 1, root cell of grid size 2. -/
theorem claim_C1_witness :
    (0 : ℝ) ≤ 2 * 1 ∧
    evaluateFieldAt (cubeCenter ⟨0, 0, 0⟩ 2 1) [] > 0 + Real.sqrt 3 / 2 * (2 * 1) ∧
    treeTraversal [] 0 1 bcZero (0 + 1) 0 ⟨0, 0, 0⟩ 2 [] = some ⟨0, [], []⟩ := by
  have h1 : (0 : ℝ) ≤ 2 * 1 := by norm_num
  have h2 : evaluateFieldAt (cubeCenter ⟨0, 0, 0⟩ 2 1) [] >
      0 + Real.sqrt 3 / 2 * (2 * 1) := by
    rw [evaluateFieldAt_nil]
    linarith [sqrt_three_lt_two, two_lt_sqrt_fltMax]
  exact ⟨h1, h2, claim_C1_prune_returns_zero [] 0 1 bcZero 0 0 ⟨0, 0, 0⟩ 2 [] h1 h2⟩

/-- C3: for every grid edge size `2^k` (a power of two, at least 1), the
recursion of `treeTraversal` terminates within `log2(gridEdgeSize) = k`
levels of subdivision (fuel `k+1` returns a result), and every `buildCube`
invocation happens on a cell of grid size exactly `gridSizeCutoff = 1` at
recursion depth exactly `k` below the starting cell. -/
theorem claim_C3_terminates_unit_leaves (points : List Vec3) (iso res : ℝ)
    (bc : Vec3 → ℕ × List Triangle) (k d : ℕ) (pos : Vec3) (buf : List Triangle) :
    ∃ r, treeTraversal points iso res bc (k + 1) d pos ((2 : ℝ) ^ k) buf = some r ∧
      ∀ c ∈ r.calls, c.2.1 = gridSizeCutoff ∧ c.2.2 = d + k :=
  treeTraversal_pow_calls points iso res bc k d pos buf

/-- Witness for C3 at a concrete instance (grid size `2^2 = 4`). -/
theorem claim_C3_witness :
    ∃ r, treeTraversal [] 0 1 bcZero (2 + 1) 0 ⟨0, 0, 0⟩ ((2 : ℝ) ^ 2) [] = some r ∧
      ∀ c ∈ r.calls, c.2.1 = gridSizeCutoff ∧ c.2.2 = 0 + 2 :=
  claim_C3_terminates_unit_leaves [] 0 1 bcZero 2 0 ⟨0, 0, 0⟩ []

/-- C4 counterexample: on the empty point set the evaluator does not return
the maximum representable scalar `FLT_MAX`; it returns its square root
(`value` is initialised to `FLT_MAX` and `sqrt` is applied on return). -/
theorem claim_C4_counterexample : evaluateFieldAt ⟨0, 0, 0⟩ [] ≠ fltMax := by
  rw [evaluateFieldAt_nil]
  exact ne_of_lt sqrt_fltMax_lt

/-- C4 (amended): for every position, on the empty point set
`evaluateFieldAt` returns `√FLT_MAX`, a position-independent sentinel
exceeding `2^63`, so empty fields produce no geometry for any isolevel
below `√FLT_MAX`. -/
theorem claim_C4_empty_sentinel (pos : Vec3) :
    evaluateFieldAt pos [] = Real.sqrt fltMax ∧ (2 : ℝ) ^ 63 < Real.sqrt fltMax :=
  ⟨evaluateFieldAt_nil pos, pow63_lt_sqrt_fltMax⟩

/-- C9: `emitTriangle` appends exactly the given triangle at the end of the
`mTriangles` buffer: the result is the old buffer with one more element,
the old contents are an untouched prefix, and the last element is the
emitted triangle. -/
theorem claim_C9_append_only (t : Triangle) (s : List Triangle) :
    emitTriangle t s = s ++ [t] ∧
    (emitTriangle t s).length = s.length + 1 ∧
    (emitTriangle t s).take s.length = s ∧
    (emitTriangle t s).getLast? = some t := by
  refine ⟨rfl, by simp [emitTriangle], ?_, ?_⟩
  · simp [emitTriangle]
  · simp [emitTriangle]


/-- C2 fails on the code: with the single field point `(0,0,0)`, isolevel
`isoGap`, resolution 1 and grid edge size 2, the root cell is pruned
(`marchCubes` returns 0 triangles with no `buildCube` call), yet the unit
leaf cube at the origin has corner field values on both sides of the
isolevel (corner `(0,0,0)` is below it, corner `(1,1,1)` above it), so the
isosurface crosses a culled leaf and an unpruned per-leaf build emits
triangles there.  The cause: the code's prune constant
`0.86602540378f = 14529495/2^24` is strictly below `√3/2`, the
circumscribed-sphere coefficient the spec mandates. -/
theorem claim_C2_pruning_drops_surface :
    marchCubes [⟨0, 0, 0⟩] isoGap 1 bcZero 1 = some ⟨0, [], []⟩ ∧
    evaluateFieldAt ⟨0, 0, 0⟩ [⟨0, 0, 0⟩] < isoGap ∧
    isoGap < evaluateFieldAt ⟨1, 1, 1⟩ [⟨0, 0, 0⟩] := by
  have hgap : sqrt3Div2 < Real.sqrt 3 / 2 := sqrt3Div2_lt_half_sqrt3
  have hs3 : (0 : ℝ) < Real.sqrt 3 := Real.sqrt_pos.2 (by norm_num)
  refine ⟨?_, ?_, ?_⟩
  · have hp : pruneTest [⟨0, 0, 0⟩] isoGap 1 ⟨0, 0, 0⟩ 2 := by
      unfold pruneTest
      rw [eval_center_two]
      unfold isoGap
      linarith
    unfold marchCubes
    rw [pow_one]
    exact treeTraversal_pruned _ _ _ _ 1 0 _ _ _ hp
  · rw [eval_origin_single]
    unfold isoGap
    linarith
  · rw [eval_diag_single]
    unfold isoGap
    linarith [sqrt3Div2_pos]

/-- C5 counterexample: with an isolevel of `2^64 > √FLT_MAX` the prune test
does not fire at the root even on the empty point set, and `buildCube` is
invoked once (the claim demands zero invocations for every finite isolevel). -/
theorem claim_C5_counterexample :
    marchCubes [] ((2 : ℝ) ^ 64) 1 bcZero 0 = some ⟨0, [(⟨0, 0, 0⟩, 1, 0)], []⟩ := by
  have hnp : ¬ pruneTest [] ((2 : ℝ) ^ 64) 1 ⟨0, 0, 0⟩ 1 := by
    unfold pruneTest
    rw [evaluateFieldAt_nil]
    have h1 := sqrt_fltMax_le_pow64
    have h2 := sqrt3Div2_nonneg
    intro hc
    nlinarith
  unfold marchCubes
  rw [pow_zero, treeTraversal_leaf _ _ _ _ 0 0 _ 1 _
    (show (1 : ℝ) = gridSizeCutoff from rfl) hnp]
  rfl

/-- C5 (amended): on the empty point set the build prunes at the root —
count 0, zero `buildCube` invocations, empty buffer — for every grid size
`2^k`, resolution and isolevel satisfying
`isoLevel + sqrt3Div2 * (2^k * resolution) < √FLT_MAX` (every realistic
isolevel; the unbounded claim fails for isolevels at or above `√FLT_MAX`). -/
theorem claim_C5_empty_set_prunes (iso res : ℝ) (bc : Vec3 → ℕ × List Triangle)
    (k : ℕ) (h : iso + sqrt3Div2 * ((2 : ℝ) ^ k * res) < Real.sqrt fltMax) :
    marchCubes [] iso res bc k = some ⟨0, [], []⟩ := by
  have hp : pruneTest [] iso res ⟨0, 0, 0⟩ ((2 : ℝ) ^ k) := by
    unfold pruneTest
    rw [evaluateFieldAt_nil]
    exact h
  unfold marchCubes
  exact treeTraversal_pruned _ _ _ _ k 0 _ _ _ hp

/-- Witness for C5 (amended) at isolevel 0, resolution 1, grid size 2. -/
theorem claim_C5_witness :
    (0 : ℝ) + sqrt3Div2 * ((2 : ℝ) ^ 1 * 1) < Real.sqrt fltMax ∧
    marchCubes [] 0 1 bcZero 1 = some ⟨0, [], []⟩ := by
  have h : (0 : ℝ) + sqrt3Div2 * ((2 : ℝ) ^ 1 * 1) < Real.sqrt fltMax := by
    have h1 : sqrt3Div2 < 1 := by norm_num [sqrt3Div2]
    have h2 := two_lt_sqrt_fltMax
    nlinarith
  exact ⟨h, claim_C5_empty_set_prunes 0 1 bcZero 1 h⟩

/-- C6 counterexample: on the empty point set with isolevel 0 the prune
test fires even at a grid of edge size 1, so the build performs zero
`buildCube` calls, not exactly one (the prune test precedes the unit-size
cutoff in `treeTraversal`). -/
theorem claim_C6_counterexample :
    marchCubes [] 0 1 bcZero 0 = some ⟨0, [], []⟩ := by
  have hp : pruneTest [] 0 1 ⟨0, 0, 0⟩ ((2 : ℝ) ^ 0) := by
    unfold pruneTest
    rw [evaluateFieldAt_nil]
    have h1 : sqrt3Div2 < 2 := by norm_num [sqrt3Div2]
    have h2 := two_lt_sqrt_fltMax
    nlinarith
  unfold marchCubes
  exact treeTraversal_pruned _ _ _ _ 0 0 _ _ _ hp

/-- C6 (amended): when the grid edge size is exactly 1 and the root cell is
not pruned, the build performs exactly one `buildCube` call, at the root
cell, with no recursive subdivision (depth stays 0), and returns that
call's triangle count; when the root is pruned there are zero calls. -/
theorem claim_C6_unit_grid_single_call (points : List Vec3) (iso res : ℝ)
    (bc : Vec3 → ℕ × List Triangle)
    (h : ¬ pruneTest points iso res ⟨0, 0, 0⟩ 1) :
    ∃ r, marchCubes points iso res bc 0 = some r ∧
      r.calls = [(⟨0, 0, 0⟩, 1, 0)] ∧ r.count = (bc ⟨0, 0, 0⟩).1 := by
  refine ⟨⟨(bc ⟨0, 0, 0⟩).1, [(⟨0, 0, 0⟩, 1, 0)], [] ++ (bc ⟨0, 0, 0⟩).2⟩, ?_, rfl, rfl⟩
  unfold marchCubes
  rw [pow_zero]
  exact treeTraversal_leaf _ _ _ _ 0 0 _ 1 _
    (show (1 : ℝ) = gridSizeCutoff from rfl) h

/-- Witness for C6 (amended): one point at the cell center, isolevel 1. -/
theorem claim_C6_witness :
    ¬ pruneTest [⟨1 / 2, 1 / 2, 1 / 2⟩] 1 1 ⟨0, 0, 0⟩ 1 ∧
    ∃ r, marchCubes [⟨1 / 2, 1 / 2, 1 / 2⟩] 1 1 bcOne 0 = some r ∧
      r.calls = [(⟨0, 0, 0⟩, 1, 0)] ∧ r.count = (bcOne ⟨0, 0, 0⟩).1 :=
  ⟨not_prune_unit,
    claim_C6_unit_grid_single_call [⟨1 / 2, 1 / 2, 1 / 2⟩] 1 1 bcOne not_prune_unit⟩

/-- C7 counterexample: a cell whose center field value equals
`isoLevel + (√3/2) * cellWorldEdgeLength` exactly IS pruned by the code,
because the code's threshold uses the float constant
`sqrt3Div2 = 14529495/2^24 < √3/2`, so the tie value strictly exceeds it:
with one field point `(0,0,0)`, isolevel 0, resolution 1, cell origin
`(0,0,0)` and grid size 2, the center value is `√3 = 0 + (√3/2)*2`, yet
`treeTraversal` returns the pruned result. -/
theorem claim_C7_counterexample :
    evaluateFieldAt (cubeCenter ⟨0, 0, 0⟩ 2 1) [⟨0, 0, 0⟩] =
      0 + Real.sqrt 3 / 2 * (2 * 1) ∧
    treeTraversal [⟨0, 0, 0⟩] 0 1 bcOne (0 + 1) 0 ⟨0, 0, 0⟩ 2 [] =
      some ⟨0, [], []⟩ := by
  constructor
  · rw [eval_center_two]; ring
  · have hp : pruneTest [⟨0, 0, 0⟩] 0 1 ⟨0, 0, 0⟩ 2 := by
      unfold pruneTest
      rw [eval_center_two]
      have h := two_mul_sqrt3Div2_lt
      nlinarith
    exact treeTraversal_pruned _ _ _ _ 0 0 _ _ _ hp

/-- C7 (amended): ties at the code's actual threshold
`isoLevel + sqrt3Div2 * cellWorldEdgeLength` are resolved by strict
inequality toward processing the cell: the prune test does not fire, and a
unit-size cell is handed to `buildCube`. -/
theorem claim_C7_tie_processes (points : List Vec3) (iso res : ℝ)
    (bc : Vec3 → ℕ × List Triangle) (pos : Vec3) (g : ℝ)
    (h : evaluateFieldAt (cubeCenter pos g res) points =
      iso + sqrt3Div2 * (g * res)) :
    ¬ pruneTest points iso res pos g ∧
      (g = gridSizeCutoff → ∀ (fuel d : ℕ) (buf : List Triangle),
        treeTraversal points iso res bc (fuel + 1) d pos g buf =
          some ⟨(bc pos).1, [(pos, g, d)], buf ++ (bc pos).2⟩) := by
  have hnp : ¬ pruneTest points iso res pos g := by
    unfold pruneTest
    rw [h]
    exact lt_irrefl _
  exact ⟨hnp, fun hg fuel d buf =>
    treeTraversal_leaf points iso res bc fuel d pos g buf hg hnp⟩

/-- Witness for C7 (amended): a tie at the code's threshold on a unit cell
(center value 0, isolevel `-sqrt3Div2`, resolution 1). -/
theorem claim_C7_witness :
    ¬ pruneTest [⟨1 / 2, 1 / 2, 1 / 2⟩] (-sqrt3Div2) 1 ⟨0, 0, 0⟩ 1 ∧
    treeTraversal [⟨1 / 2, 1 / 2, 1 / 2⟩] (-sqrt3Div2) 1 bcOne (0 + 1) 0 ⟨0, 0, 0⟩ 1 [] =
      some ⟨1, [(⟨0, 0, 0⟩, 1, 0)], [(⟨0, 0, 0⟩, ⟨0, 0, 0⟩, ⟨0, 0, 0⟩)]⟩ := by
  have h : evaluateFieldAt (cubeCenter ⟨0, 0, 0⟩ 1 1) [⟨1 / 2, 1 / 2, 1 / 2⟩] =
      -sqrt3Div2 + sqrt3Div2 * (1 * 1) := by
    rw [eval_center_unit]; ring
  have hmain := claim_C7_tie_processes [⟨1 / 2, 1 / 2, 1 / 2⟩] (-sqrt3Div2) 1
    bcOne ⟨0, 0, 0⟩ 1 h
  refine ⟨hmain.1, ?_⟩
  have h2 := hmain.2 (show (1 : ℝ) = gridSizeCutoff from rfl) 0 0 []
  simpa [bcOne] using h2

/-- C8 counterexample: for a point farther than `√FLT_MAX`, the running
minimum stays capped at its `FLT_MAX` seed, so the evaluator does not
return the square root of the minimal squared distance: at position
`(0,0,0)` with the single point `(2^70, 0, 0)` it returns `√FLT_MAX < 2^70`. -/
theorem claim_C8_counterexample :
    evaluateFieldAt ⟨0, 0, 0⟩ [⟨(2 : ℝ) ^ 70, 0, 0⟩] ≠
      Real.sqrt (sqDist ⟨0, 0, 0⟩ ⟨(2 : ℝ) ^ 70, 0, 0⟩) := by
  have hd : sqDist (⟨0, 0, 0⟩ : Vec3) ⟨(2 : ℝ) ^ 70, 0, 0⟩ = 2 ^ 140 := by
    simp only [sqDist]
    norm_num
  rw [evaluateFieldAt_single, hd,
    min_eq_left (by norm_num [fltMax] : fltMax ≤ (2 : ℝ) ^ 140)]
  have h2 : Real.sqrt ((2 : ℝ) ^ 140) = 2 ^ 70 := by
    rw [show ((2 : ℝ) ^ 140) = ((2 : ℝ) ^ 70) ^ 2 by rw [← pow_mul]]
    exact Real.sqrt_sq (by positivity)
  rw [h2]
  have h3 : Real.sqrt fltMax < (2 : ℝ) ^ 70 := by
    refine (Real.sqrt_lt' (by positivity)).2 ?_
    norm_num [fltMax]
  exact ne_of_lt h3

/-- C8 (amended): for every position and point set containing at least one
point at squared distance at most `FLT_MAX`, `evaluateFieldAt` returns the
square root of the minimum squared Euclidean distance over all points: its
value is attained at some point of the set and is a lower bound of all the
per-point distances.  (It is a pure function of its arguments by
construction.) -/
theorem claim_C8_min_distance (pos : Vec3) (points : List Vec3)
    (h : ∃ p ∈ points, sqDist pos p ≤ fltMax) :
    (∃ q ∈ points, evaluateFieldAt pos points = Real.sqrt (sqDist pos q)) ∧
      ∀ q ∈ points, evaluateFieldAt pos points ≤ Real.sqrt (sqDist pos q) := by
  obtain ⟨p, hp, hdp⟩ := h
  have hle := foldl_min_le (points.map (sqDist pos)) fltMax
  have hmem := foldl_min_mem (points.map (sqDist pos)) fltMax
  unfold evaluateFieldAt
  rw [(List.foldl_map (sqDist pos) min points fltMax).symm]
  constructor
  · rcases hmem with hm | hm
    · have h1 : (points.map (sqDist pos)).foldl min fltMax ≤ sqDist pos p :=
        hle.2 _ (List.mem_map_of_mem _ hp)
      have h2 : (points.map (sqDist pos)).foldl min fltMax = sqDist pos p :=
        le_antisymm h1 (by rw [hm]; exact hdp)
      exact ⟨p, hp, by rw [h2]⟩
    · obtain ⟨q, hq, hqe⟩ := List.mem_map.1 hm
      exact ⟨q, hq, by rw [hqe]⟩
  · intro q hq
    exact Real.sqrt_le_sqrt (hle.2 _ (List.mem_map_of_mem _ hq))

/-- Witness for C8 (amended): one point at distance 3. -/
theorem claim_C8_witness :
    (∃ p ∈ [(⟨3, 0, 0⟩ : Vec3)], sqDist ⟨0, 0, 0⟩ p ≤ fltMax) ∧
    (∃ q ∈ [(⟨3, 0, 0⟩ : Vec3)],
        evaluateFieldAt ⟨0, 0, 0⟩ [⟨3, 0, 0⟩] = Real.sqrt (sqDist ⟨0, 0, 0⟩ q)) ∧
      ∀ q ∈ [(⟨3, 0, 0⟩ : Vec3)],
        evaluateFieldAt ⟨0, 0, 0⟩ [⟨3, 0, 0⟩] ≤ Real.sqrt (sqDist ⟨0, 0, 0⟩ q) := by
  have h : ∃ p ∈ [(⟨3, 0, 0⟩ : Vec3)], sqDist ⟨0, 0, 0⟩ p ≤ fltMax :=
    ⟨⟨3, 0, 0⟩, List.mem_singleton_self _, by norm_num [sqDist, fltMax]⟩
  exact ⟨h, claim_C8_min_distance ⟨0, 0, 0⟩ [⟨3, 0, 0⟩] h⟩

/-- C10: assuming `buildCube` returns exactly the number of triangles it
emits, every `treeTraversal` call extends the buffer it was given by
exactly its returned count (previous contents untouched), and consequently
the count returned by `marchCubes` equals the length of the buffer exposed
by `getTrianglesArray`. -/
theorem claim_C10_count_matches_buffer (points : List Vec3) (iso res : ℝ)
    (bc : Vec3 → ℕ × List Triangle) (hbc : ∀ p, (bc p).1 = (bc p).2.length) :
    (∀ (fuel d : ℕ) (pos : Vec3) (g : ℝ) (buf : List Triangle) (r : TraceResult),
        treeTraversal points iso res bc fuel d pos g buf = some r →
        ∃ ts, r.buf = buf ++ ts ∧ ts.length = r.count) ∧
    ∀ (k : ℕ) (r : TraceResult), marchCubes points iso res bc k = some r →
      r.count = (getTrianglesArray r.buf).length := by
  refine ⟨treeTraversal_count_buf points iso res bc hbc, ?_⟩
  intro k r h
  obtain ⟨ts, hbuf, hlen⟩ :=
    treeTraversal_count_buf points iso res bc hbc (k + 1) 0 ⟨0, 0, 0⟩ ((2 : ℝ) ^ k) [] r h
  unfold getTrianglesArray
  rw [hbuf]
  simpa using hlen.symm

/-- Witness for C10 at a concrete non-pruned unit build with `bcOne`. -/
theorem claim_C10_witness :
    (1 : ℕ) = (getTrianglesArray [(⟨0, 0, 0⟩, ⟨0, 0, 0⟩, ⟨0, 0, 0⟩)]).length := by
  have hbc : ∀ p, (bcOne p).1 = (bcOne p).2.length := fun p => rfl
  exact (claim_C10_count_matches_buffer [⟨1 / 2, 1 / 2, 1 / 2⟩] 1 1 bcOne hbc).2 0
    ⟨1, [(⟨0, 0, 0⟩, 1, 0)], [(⟨0, 0, 0⟩, ⟨0, 0, 0⟩, ⟨0, 0, 0⟩)]⟩
    (marchCubes_unit_eval bcOne)
